import Mathlib

/-!
Verification of the webhook-forge hook registry and trigger pipeline.

This file is a shallow embedding of the core of the repository:
* the `Hook` data model (`internal/domain`, Go struct `Hook`);
* the JSON-backed registry (`internal/storage/json_hook_repository.go`):
  the in-memory `map[string]*Hook` is embedded as an association list with
  unique keys, the `save()` call as a boolean flag recording whether the
  persistence step was reached;
* the hook service (`internal/service/hook_service.go`): field validation,
  constant-time token comparison (`crypto/subtle.ConstantTimeCompare`),
  token validation, and the flag-file creation path computation
  (`path/filepath.IsAbs`, `strings.Contains`, `filepath.Join`/`Clean`).

Go `time.Time` values are embedded as `Nat` clock readings passed
explicitly to the operations that call `time.Now()`.  File-system paths
are embedded as lists of `/`-separated segments (lists of characters),
with `filepath.Clean` embedded as the standard stack of segments.
-/

/-- Embeds the Go struct `domain.Hook` (`internal/domain`): fields
`ID, Name, Description, Token, FlagFile, Enabled, CreatedAt, UpdatedAt`.
Timestamps are `Nat` clock readings. -/
structure Hook where
  id : String
  name : String
  description : String
  token : String
  flagFile : String
  enabled : Bool
  createdAt : Nat
  updatedAt : Nat
deriving DecidableEq, Repr

/-- The closed set of error conditions produced by the registry and the
service: `domain.ErrHookNotFound`, `domain.ErrInvalidToken`, the ad hoc
`fmt.Errorf("hook is disabled")`, the ad hoc
`fmt.Errorf("hook with ID %s already exists", id)` of `Create`, and the
ad hoc validation errors of `validateHook`/`createFlagFile` (carrying
their message). -/
inductive Err where
  | hookNotFound
  | invalidToken
  | hookDisabled
  | alreadyExists (id : String)
  | validation (msg : String)
deriving DecidableEq, Repr

/-- `true` exactly on `Except.ok`. -/
def exceptOk {α : Type} : Except Err α → Bool
  | .ok _ => true
  | .error _ => false

/-! ## Path model

Paths are strings; we reason about them through their `/`-separated
segments (`List Char` each).  `filepath.IsAbs` on Unix is
`strings.HasPrefix(path, "/")`; `strings.Contains(s, "..")` is substring
search; `filepath.Join(a, b) = Clean(a + "/" + b)`, and `Clean` resolves
`.`/empty segments and `..` segments against a stack. -/

/-- Embeds Unix `filepath.IsAbs`: the path starts with `/`. -/
def isAbsB : List Char → Bool
  | '/' :: _ => true
  | _ => false

/-- `true` iff the list starts with the two characters `..`. -/
def startsDotDot : List Char → Bool
  | c1 :: c2 :: _ => c1 = '.' && c2 = '.'
  | _ => false

/-- Embeds Go `strings.Contains(s, "..")`: the two-character sequence
`..` occurs contiguously somewhere in the list. -/
def containsDotDotB : List Char → Bool
  | [] => false
  | c :: cs => startsDotDot (c :: cs) || containsDotDotB cs

/-- Splits a character list at every `/`, keeping empty segments
(the segmentation underlying `filepath.Clean`). -/
def splitSlash : List Char → List (List Char)
  | [] => [[]]
  | c :: cs =>
    if c = '/' then [] :: splitSlash cs
    else
      match splitSlash cs with
      | [] => [[c]]
      | s :: rest => (c :: s) :: rest

/-- `true` iff some `/`-separated segment of the list is exactly `..`
(the *path-segment* reading of traversal, used to compare the spec
sentence against the substring check the code performs). -/
def hasDotDotSegB (l : List Char) : Bool :=
  (splitSlash l).any (fun seg => seg = ['.', '.'])

/-- A segment that `filepath.Clean` keeps as-is: neither empty nor `.`
(and the `..` case is handled separately by the stack). -/
def goodSeg (seg : List Char) : Bool :=
  !(seg = ([] : List Char) : Bool) && !(seg = ['.'] : Bool)

/-- The segment stack of `filepath.Clean`, processed left to right over
the input segments; the stack is kept reversed (head = last pushed).
Empty and `.` segments are dropped; `..` pops a non-`..` top, is dropped
at the root of an absolute path, and is kept otherwise. -/
def cleanRev (ab : Bool) : List (List Char) → List (List Char) → List (List Char)
  | [], st => st
  | seg :: rest, st =>
    if seg = [] ∨ seg = ['.'] then cleanRev ab rest st
    else if seg = ['.', '.'] then
      match st with
      | [] => cleanRev ab rest (if ab then [] else [seg])
      | top :: st2 =>
        if top = ['.', '.'] then cleanRev ab rest (seg :: top :: st2)
        else cleanRev ab rest st2
    else cleanRev ab rest (seg :: st)

/-- A cleaned path: its absolute flag and its cleaned segment list. -/
abbrev CleanPath := Bool × List (List Char)

/-- Embeds `filepath.Join(dir, file) = Clean(dir + "/" + file)` at the
segment level: the segments of `dir` followed by the segments of `file`,
cleaned, under the absolute flag of `dir`. -/
def joinPath (dir file : String) : CleanPath :=
  let ab := isAbsB dir.data
  (ab, (cleanRev ab (splitSlash dir.data ++ splitSlash file.data) []).reverse)

/-- The flags-root directory as `filepath.Clean` normalises it: every
path the service may legitimately write must have these segments as a
prefix. -/
def cleanedRoot (dir : String) : List (List Char) :=
  (cleanRev (isAbsB dir.data) (splitSlash dir.data) []).reverse

example : joinPath "/data/flags" "proj/flag.txt" =
    (true, [['d','a','t','a'], ['f','l','a','g','s'],
            ['p','r','o','j'], ['f','l','a','g','.','t','x','t']]) := by
  decide

example : containsDotDotB "../../escape".data = true := by decide

/-! ## Registry (`internal/storage/json_hook_repository.go`)

The in-memory `map[string]*Hook` is embedded as an association list from
ids to hooks (reachable states keep the keys `Nodup`, proved below).
Each mutating method returns the possible error, the map afterwards, and
whether the `save()` persistence step was reached (`save` rewrites the
backing file wholesale; its own I/O failures are outside the model). -/

/-- The in-memory hook map. -/
abbrev Registry := List (String × Hook)

/-- Embeds the Go map read `r.hooks[id]`. -/
def findHook : Registry → String → Option Hook
  | [], _ => none
  | (k, h) :: rest, id => if k = id then some h else findHook rest id

/-- Outcome of a mutating registry method: the error (if any), the map
after the call, and whether `save()` was invoked. -/
structure OpResult where
  err : Option Err
  hooks : Registry
  saved : Bool
deriving Repr

/-- Embeds `JSONHookRepository.Create`: rejects an already-present id
before touching the map; otherwise sets `CreatedAt = UpdatedAt = now`,
stores the hook under its id, and saves. -/
def repoCreate (hooks : Registry) (h : Hook) (now : Nat) : OpResult :=
  if (findHook hooks h.id).isSome then
    ⟨some (.alreadyExists h.id), hooks, false⟩
  else
    ⟨none, (h.id, { h with createdAt := now, updatedAt := now }) :: hooks, true⟩

/-- Embeds `JSONHookRepository.Update`: rejects a missing id before
touching the map; otherwise sets `UpdatedAt = now`, replaces the stored
record wholesale (`r.hooks[hook.ID] = hook`), and saves. -/
def repoUpdate (hooks : Registry) (h : Hook) (now : Nat) : OpResult :=
  if (findHook hooks h.id).isSome then
    ⟨none,
     hooks.map (fun p => if p.1 = h.id then (p.1, { h with updatedAt := now }) else p),
     true⟩
  else
    ⟨some .hookNotFound, hooks, false⟩

/-- Embeds `JSONHookRepository.Delete`: rejects a missing id before
touching the map; otherwise removes the entry and saves. -/
def repoDelete (hooks : Registry) (id : String) : OpResult :=
  if (findHook hooks id).isSome then
    ⟨none, hooks.filter (fun p => !(p.1 = id : Bool)), true⟩
  else
    ⟨some .hookNotFound, hooks, false⟩

/-- Registry states reachable from the empty map by any sequence of
`Create`/`Update`/`Delete` calls (succeeding or failing). -/
inductive Reach : Registry → Prop where
  | empty : Reach []
  | create {s} (h : Hook) (now : Nat) : Reach s → Reach (repoCreate s h now).hooks
  | update {s} (h : Hook) (now : Nat) : Reach s → Reach (repoUpdate s h now).hooks
  | delete {s} (id : String) : Reach s → Reach (repoDelete s id).hooks

/-! ## Token comparison (`crypto/subtle.ConstantTimeCompare`)

Go source of the primitive:
length check first (return 0 on length mismatch), else one pass ORing
the XOR of every byte pair, returning 1 iff the accumulator is 0.
The byte sequence of a token string is embedded as the sequence of its
character code points; the instrumented version also returns the number
of loop iterations performed, as the cost model for the constant-time
claim. -/

/-- The byte sequence of a string, embedded as its character code
points. -/
def strBytes (s : String) : List Nat :=
  s.data.map Char.toNat

/-- Instrumented `subtle.ConstantTimeCompare`: first component is the
Go return value (1 on equality, 0 otherwise), second is the number of
byte-comparison loop iterations executed. -/
def constantTimeCompareT (x y : List Nat) : Nat × Nat :=
  if x.length = y.length then
    ((if (x.zip y).foldl (fun v p => v ||| (p.1 ^^^ p.2)) 0 = 0 then 1 else 0),
     (x.zip y).length)
  else
    (0, 0)

/-- `subtle.ConstantTimeCompare` proper. -/
def constantTimeCompare (x y : List Nat) : Nat :=
  (constantTimeCompareT x y).1

/-! ## Service (`internal/service/hook_service.go`) -/

/-- Embeds `HookService.validateHook`: id, name and flag file required
non-empty; flag file neither absolute nor containing `..` as a
substring.  No other field is checked (in particular an empty token
passes). -/
def validateHook (hook : Hook) : Except Err Unit :=
  if hook.id = "" then .error (.validation "hook ID is required")
  else if hook.name = "" then .error (.validation "hook name is required")
  else if hook.flagFile = "" then .error (.validation "hook flag file is required")
  else if isAbsB hook.flagFile.data then
    .error (.validation ("flag file path must be relative: " ++ hook.flagFile))
  else if containsDotDotB hook.flagFile.data then
    .error (.validation ("flag file path must not contain ..: " ++ hook.flagFile))
  else .ok ()

/-- Embeds `HookService.CreateHook`: validate, then delegate to the
registry `Create`. -/
def createHook (hooks : Registry) (h : Hook) (now : Nat) : OpResult :=
  match validateHook h with
  | .error e => ⟨some e, hooks, false⟩
  | .ok () => repoCreate hooks h now

/-- Embeds `HookService.UpdateHook`: validate, then delegate to the
registry `Update`. -/
def updateHook (hooks : Registry) (h : Hook) (now : Nat) : OpResult :=
  match validateHook h with
  | .error e => ⟨some e, hooks, false⟩
  | .ok () => repoUpdate hooks h now

/-- Embeds `HookService.ValidateHookToken`: fetch the hook (not-found
propagates), fail if disabled, then compare the stored token with the
supplied token via `subtle.ConstantTimeCompare`. -/
def validateHookToken (hooks : Registry) (id token : String) : Except Err Unit :=
  match findHook hooks id with
  | none => .error .hookNotFound
  | some hook =>
    if !hook.enabled then .error .hookDisabled
    else if !(constantTimeCompare (strBytes hook.token) (strBytes token) = 1 : Bool) then
      .error .invalidToken
    else .ok ()

/-- Embeds `HookService.createFlagFile`: re-validate the flag file
(absolute / `..` substring), then the file written is
`filepath.Join(flagsDir, hook.FlagFile)`; the returned path is the only
path the routine creates (directory creation and the timestamp line are
I/O on that same path and its prefix directories). -/
def createFlagFile (flagsDir : String) (hook : Hook) : Except Err CleanPath :=
  if isAbsB hook.flagFile.data then
    .error (.validation ("flag file path must be relative: " ++ hook.flagFile))
  else if containsDotDotB hook.flagFile.data then
    .error (.validation ("flag file path must not contain ..: " ++ hook.flagFile))
  else .ok (joinPath flagsDir hook.flagFile)

/-- Embeds `HookService.TriggerHook`: validate the token, re-fetch the
hook, create the flag file; any error short-circuits. -/
def triggerHook (hooks : Registry) (flagsDir id token : String) : Except Err CleanPath :=
  match validateHookToken hooks id token with
  | .error e => .error e
  | .ok () =>
    match findHook hooks id with
    | none => .error .hookNotFound
    | some hook => createFlagFile flagsDir hook

/-- The set of files a `TriggerHook` call writes: exactly the flag file
on success, nothing on any error (the source returns before
`createFlagFile` on validation failure, and `os.Create` is only reached
after both checks pass). -/
def filesWritten : Except Err CleanPath → List CleanPath
  | .ok p => [p]
  | .error _ => []

/-- A concrete enabled hook, as in the spec scenario. -/
def hookCI : Hook := ⟨"ci", "CI", "", "abc123", "proj/flag.txt", true, 0, 0⟩

/-- The same hook disabled. -/
def hookCIoff : Hook := { hookCI with enabled := false }

/-- A stored hook whose token is the empty string (reachable, e.g., via
an update whose request body omits the token). -/
def hookNoTok : Hook := ⟨"ci", "CI", "", "", "proj/flag.txt", true, 0, 0⟩

example : containsDotDotB "a..b".data = true := by decide
example : hasDotDotSegB "a..b".data = false := by decide
example : hasDotDotSegB "../x".data = true := by decide
example : isAbsB "/etc/passwd".data = true := by decide

/-! ## Path lemmas -/

theorem cleanRev_append (ab : Bool) (as bs : List (List Char)) :
    ∀ st, cleanRev ab (as ++ bs) st = cleanRev ab bs (cleanRev ab as st) := by
  induction as with
  | nil => intro st; simp [cleanRev]
  | cons seg rest ih =>
    intro st
    by_cases h1 : seg = [] ∨ seg = ['.']
    · simp [cleanRev, h1, ih]
    · by_cases h2 : seg = ['.', '.']
      · cases st with
        | nil => simp [cleanRev, h1, h2, ih]
        | cons top st2 =>
          by_cases h3 : top = ['.', '.']
          · simp [cleanRev, h1, h2, h3, ih]
          · simp [cleanRev, h1, h2, h3, ih]
      · simp [cleanRev, h1, h2, ih]

theorem cleanRev_eq_filter (ab : Bool) (bs : List (List Char))
    (hb : ∀ seg ∈ bs, seg ≠ ['.', '.']) :
    ∀ st, cleanRev ab bs st = (bs.filter goodSeg).reverse ++ st := by
  induction bs with
  | nil => intro st; simp [cleanRev]
  | cons seg rest ih =>
    intro st
    have hseg : seg ≠ ['.', '.'] := hb seg (by simp)
    have hrest : ∀ s ∈ rest, s ≠ ['.', '.'] := fun s hs => hb s (by simp [hs])
    by_cases h1 : seg = [] ∨ seg = ['.']
    · have hg : goodSeg seg = false := by
        rcases h1 with h | h <;> simp [goodSeg, h]
      simp [cleanRev, h1, List.filter_cons, hg, ih hrest]
    · have hg : goodSeg seg = true := by
        push_neg at h1
        simp [goodSeg, h1.1, h1.2]
      simp [cleanRev, h1, hseg, List.filter_cons, hg, ih hrest]

theorem splitSlash_ne_nil (l : List Char) : splitSlash l ≠ [] := by
  cases l with
  | nil => simp [splitSlash]
  | cons c cs =>
    by_cases h : c = '/'
    · simp [splitSlash, h]
    · simp only [splitSlash, if_neg h]
      cases splitSlash cs <;> simp

theorem splitSlash_head_app (l : List Char) :
    ∀ s rest, splitSlash l = s :: rest → ∃ t, l = s ++ t := by
  induction l with
  | nil =>
    intro s rest h
    simp [splitSlash] at h
    exact ⟨[], by simp [h.1]⟩
  | cons c cs ih =>
    intro s rest h
    by_cases hc : c = '/'
    · simp [splitSlash, hc] at h
      exact ⟨c :: cs, by simp [h.1]⟩
    · simp only [splitSlash, if_neg hc] at h
      rcases he : splitSlash cs with _ | ⟨s2, rest2⟩
      · exact absurd he (splitSlash_ne_nil cs)
      · rw [he] at h
        obtain ⟨t, ht⟩ := ih s2 rest2 he
        injection h with hh _
        exact ⟨t, by rw [← hh, ht]; simp⟩

theorem not_containsDotDot_segs (l : List Char)
    (h : containsDotDotB l = false) :
    ∀ seg ∈ splitSlash l, seg ≠ ['.', '.'] := by
  induction l with
  | nil =>
    intro seg hs
    simp [splitSlash] at hs
    simp [hs]
  | cons c cs ih =>
    intro seg hs
    have h2 : startsDotDot (c :: cs) = false ∧ containsDotDotB cs = false := by
      simpa [containsDotDotB] using h
    by_cases hc : c = '/'
    · simp [splitSlash, hc] at hs
      rcases hs with hs | hs
      · simp [hs]
      · exact ih h2.2 seg hs
    · simp only [splitSlash, if_neg hc] at hs
      rcases he : splitSlash cs with _ | ⟨s2, rest2⟩
      · exact absurd he (splitSlash_ne_nil cs)
      · rw [he] at hs
        simp at hs
        rcases hs with hs | hs
        · intro hseg
          rw [hseg] at hs
          have hcdot : c = '.' := by
            have := congrArg (fun l => l.head?) hs
            simpa using this.symm
          have hs2 : s2 = ['.'] := by
            have := congrArg List.tail hs
            simpa using this.symm
          obtain ⟨t, ht⟩ := splitSlash_head_app cs s2 rest2 he
          rw [hs2] at ht
          rw [ht, hcdot] at h2
          simp [startsDotDot] at h2
        · exact ih h2.2 seg (by rw [he]; simp [hs])

/-- When the appended file part contains no `..` substring (hence no
`..` segment), cleaning the concatenation keeps the cleaned directory
segments as a prefix: `Join(dir, file)` cannot climb out of `dir`. -/
theorem joinPath_within (dir file : String)
    (hno : containsDotDotB file.data = false) :
    (joinPath dir file).1 = isAbsB dir.data ∧
    ∃ t, (joinPath dir file).2 = cleanedRoot dir ++ t := by
  refine ⟨rfl, ⟨(splitSlash file.data).filter goodSeg, ?_⟩⟩
  show (cleanRev (isAbsB dir.data) (splitSlash dir.data ++ splitSlash file.data) []).reverse = _
  rw [cleanRev_append, cleanRev_eq_filter _ _ (not_containsDotDot_segs _ hno)]
  simp [cleanedRoot]

/-- `validateHook` succeeds exactly when id, name and flag file are
non-empty and the flag file is neither absolute nor contains the
substring `..`. -/
theorem validateHook_ok_iff (h : Hook) :
    exceptOk (validateHook h) = true ↔
      (h.id ≠ "" ∧ h.name ≠ "" ∧ h.flagFile ≠ "" ∧
       isAbsB h.flagFile.data = false ∧ containsDotDotB h.flagFile.data = false) := by
  simp only [validateHook]
  split_ifs <;> simp [exceptOk, *]

/-! ## Token-comparison lemmas -/

theorem or_eq_zero_iff (a b : Nat) : a ||| b = 0 ↔ a = 0 ∧ b = 0 := by
  constructor
  · intro h
    constructor
    · apply Nat.eq_of_testBit_eq
      intro i
      have h2 := congrArg (fun n => n.testBit i) h
      simp at h2
      simp [h2.1]
    · apply Nat.eq_of_testBit_eq
      intro i
      have h2 := congrArg (fun n => n.testBit i) h
      simp at h2
      simp [h2.2]
  · rintro ⟨rfl, rfl⟩
    simp

theorem foldl_or_eq_zero (l : List (Nat × Nat)) :
    ∀ v, l.foldl (fun v p => v ||| (p.1 ^^^ p.2)) v = 0 ↔
      v = 0 ∧ ∀ p ∈ l, p.1 = p.2 := by
  induction l with
  | nil => simp
  | cons q rest ih =>
    intro v
    simp only [List.foldl_cons, ih, or_eq_zero_iff, Nat.xor_eq_zero, List.mem_cons]
    constructor
    · rintro ⟨⟨hv, hq⟩, hrest⟩
      refine ⟨hv, ?_⟩
      intro p hp
      rcases hp with rfl | hp
      · exact hq
      · exact hrest p hp
    · rintro ⟨hv, hall⟩
      exact ⟨⟨hv, hall q (Or.inl rfl)⟩, fun p hp => hall p (Or.inr hp)⟩

theorem zip_pointwise_eq {x : List Nat} :
    ∀ {y : List Nat}, x.length = y.length →
      (∀ p ∈ x.zip y, p.1 = p.2) → x = y := by
  induction x with
  | nil =>
    intro y hlen _
    cases y with
    | nil => rfl
    | cons b bs => simp at hlen
  | cons a as ih =>
    intro y hlen h
    cases y with
    | nil => simp at hlen
    | cons b bs =>
      have hab : a = b := h (a, b) (by simp)
      have hrest : as = bs :=
        ih (by simpa using hlen) (fun p hp => h p (by simp [hp]))
      rw [hab, hrest]

theorem zip_self_eq (l : List Nat) : ∀ p ∈ l.zip l, p.1 = p.2 := by
  induction l with
  | nil => simp
  | cons a as ih =>
    intro p hp
    simp only [List.zip_cons_cons, List.mem_cons] at hp
    rcases hp with rfl | hp
    · rfl
    · exact ih p hp

theorem strBytes_inj {a b : String} (h : strBytes a = strBytes b) : a = b := by
  unfold strBytes at h
  have hinj : Function.Injective Char.toNat := by
    intro c d hcd
    rw [← Char.ofNat_toNat c, ← Char.ofNat_toNat d, hcd]
  have hdata : a.data = b.data := List.map_injective_iff.mpr hinj h
  cases a
  cases b
  exact congrArg String.mk hdata

/-- `subtle.ConstantTimeCompare` returns 1 on the byte sequences of two
strings exactly when the strings are equal. -/
theorem ctCompare_eq_one_iff (a b : String) :
    constantTimeCompare (strBytes a) (strBytes b) = 1 ↔ a = b := by
  unfold constantTimeCompare constantTimeCompareT
  by_cases hlen : (strBytes a).length = (strBytes b).length
  · rw [if_pos hlen]
    by_cases hz : ((strBytes a).zip (strBytes b)).foldl
        (fun v p => v ||| (p.1 ^^^ p.2)) 0 = 0
    · rw [if_pos hz]
      simp only [true_iff, eq_self_iff_true]
      apply strBytes_inj
      apply zip_pointwise_eq hlen
      exact ((foldl_or_eq_zero _ 0).mp hz).2
    · rw [if_neg hz]
      constructor
      · intro h01
        exact absurd h01 (by norm_num)
      · intro hab
        subst hab
        exact absurd ((foldl_or_eq_zero _ 0).mpr ⟨rfl, zip_self_eq _⟩) hz
  · rw [if_neg hlen]
    constructor
    · intro h01
      exact absurd h01 (by norm_num)
    · intro hab
      subst hab
      exact absurd rfl hlen

/-- The Go return value of the comparison is always 0 or 1. -/
theorem ctCompare_fst_cases (x y : List Nat) :
    (constantTimeCompareT x y).1 = 0 ∨ (constantTimeCompareT x y).1 = 1 := by
  unfold constantTimeCompareT
  split_ifs <;> simp

/-! ## Claims -/

/-- C1: at trigger time, `createFlagFile` fails (writing nothing) when
the flag file is absolute or contains `..`; otherwise the only path it
writes is `filepath.Join(flagsDir, flagFile)`, which always stays under
the flags root (the cleaned root segments are a prefix of the written
path); and the same check already rejects such a hook at save time
(`validateHook`). -/
theorem c1_flag_file_path_safety (flagsDir : String) (hook : Hook) :
    (isAbsB hook.flagFile.data = true ∨ containsDotDotB hook.flagFile.data = true →
      exceptOk (createFlagFile flagsDir hook) = false ∧
      exceptOk (validateHook hook) = false) ∧
    (∀ p, createFlagFile flagsDir hook = .ok p →
      p = joinPath flagsDir hook.flagFile ∧
      p.1 = isAbsB flagsDir.data ∧
      ∃ t, p.2 = cleanedRoot flagsDir ++ t) := by
  constructor
  · intro hbad
    constructor
    · simp only [createFlagFile]
      split_ifs with h1 h2 <;> simp [exceptOk, *] at *
    · rw [← Bool.not_eq_true, validateHook_ok_iff]
      rcases hbad with hb | hb <;> simp [hb]
  · intro p hp
    simp only [createFlagFile] at hp
    by_cases h1 : isAbsB hook.flagFile.data = true
    · rw [if_pos h1] at hp
      exact absurd hp (by simp)
    · rw [if_neg h1] at hp
      by_cases h2 : containsDotDotB hook.flagFile.data = true
      · rw [if_pos h2] at hp
        exact absurd hp (by simp)
      · rw [if_neg h2] at hp
        have hpj : p = joinPath flagsDir hook.flagFile := by
          injection hp with h
          exact h.symm
        obtain ⟨hab, ht⟩ := joinPath_within flagsDir hook.flagFile (by
          simpa using h2)
        exact ⟨hpj, by rw [hpj]; exact hab, by rw [hpj]; exact ht⟩

theorem c1_flag_file_path_safety_witness :
    (exceptOk (createFlagFile "data/flags"
        ⟨"ci", "CI", "", "abc123", "../../escape", true, 0, 0⟩) = false ∧
     exceptOk (validateHook
        ⟨"ci", "CI", "", "abc123", "../../escape", true, 0, 0⟩) = false) ∧
    ((true, [['d','a','t','a'], ['f','l','a','g','s'],
             ['p','r','o','j'], ['f','l','a','g','.','t','x','t']])
        = joinPath "/data/flags" "proj/flag.txt" ∧
     (true, [['d','a','t','a'], ['f','l','a','g','s'],
             ['p','r','o','j'], ['f','l','a','g','.','t','x','t']]).1
        = isAbsB "/data/flags".data ∧
     ∃ t, (true, [['d','a','t','a'], ['f','l','a','g','s'],
             ['p','r','o','j'], ['f','l','a','g','.','t','x','t']]).2
        = cleanedRoot "/data/flags" ++ t) :=
  ⟨(c1_flag_file_path_safety "data/flags"
      ⟨"ci", "CI", "", "abc123", "../../escape", true, 0, 0⟩).1 (Or.inr (by decide)),
   (c1_flag_file_path_safety "/data/flags"
      ⟨"ci", "CI", "", "abc123", "proj/flag.txt", true, 0, 0⟩).2
      (true, [['d','a','t','a'], ['f','l','a','g','s'],
              ['p','r','o','j'], ['f','l','a','g','.','t','x','t']]) (by rfl)⟩

/-- C2: `ValidateHookToken` returns not-found exactly when the id is
absent; returns the disabled error whenever the hook exists and is
disabled, regardless of the supplied token; and for an enabled hook
returns invalid-token exactly when the supplied token differs from the
stored token, succeeding exactly when they are equal. -/
theorem c2_validate_hook_token (hooks : Registry) (id token : String) :
    (validateHookToken hooks id token = .error .hookNotFound ↔
      findHook hooks id = none) ∧
    (∀ hook, findHook hooks id = some hook → hook.enabled = false →
      validateHookToken hooks id token = .error .hookDisabled) ∧
    (∀ hook, findHook hooks id = some hook → hook.enabled = true →
      ((validateHookToken hooks id token = .error .invalidToken) ↔
        token ≠ hook.token) ∧
      ((validateHookToken hooks id token = .ok ()) ↔ token = hook.token)) := by
  refine ⟨?_, ?_, ?_⟩
  · constructor
    · intro h
      cases hf : findHook hooks id with
      | none => rfl
      | some hook =>
        simp only [validateHookToken, hf] at h
        by_cases he : hook.enabled
        · by_cases hc : constantTimeCompare (strBytes hook.token) (strBytes token) = 1
          · simp [he, hc] at h
          · simp [he, hc] at h
        · simp [he] at h
    · intro h
      simp [validateHookToken, h]
  · intro hook hf he
    simp [validateHookToken, hf, he]
  · intro hook hf he
    have hiff := ctCompare_eq_one_iff hook.token token
    by_cases hc : constantTimeCompare (strBytes hook.token) (strBytes token) = 1
    · have htk : token = hook.token := (hiff.mp hc).symm
      subst htk
      constructor
      · simp [validateHookToken, hf, he, hc]
      · simp [validateHookToken, hf, he, hc]
    · have htk : token ≠ hook.token := fun h => hc (hiff.mpr h.symm)
      constructor
      · simp [validateHookToken, hf, he, hc, htk]
      · simp [validateHookToken, hf, he, hc, htk]

theorem c2_validate_hook_token_witness :
    (validateHookToken [] "ci" "abc123" = .error .hookNotFound ↔
      findHook ([] : Registry) "ci" = none) ∧
    (validateHookToken [("ci", hookCI)] "ci" "abc123" = .ok ()) ∧
    (validateHookToken [("ci", hookCI)] "ci" "wrong" = .error .invalidToken) :=
  ⟨(c2_validate_hook_token [] "ci" "abc123").1,
   (((c2_validate_hook_token [("ci", hookCI)] "ci" "abc123").2.2 hookCI rfl rfl).2).mpr rfl,
   (((c2_validate_hook_token [("ci", hookCI)] "ci" "wrong").2.2 hookCI rfl rfl).1).mpr
     (by decide)⟩

/-- C3: a stored disabled hook fails trigger with the disabled
condition even when the supplied token is exactly the stored token, and
the call writes no file. -/
theorem c3_disabled_gate (hooks : Registry) (flagsDir id : String) (hook : Hook)
    (hf : findHook hooks id = some hook) (hd : hook.enabled = false) :
    triggerHook hooks flagsDir id hook.token = .error .hookDisabled ∧
    filesWritten (triggerHook hooks flagsDir id hook.token) = [] := by
  have hv : validateHookToken hooks id hook.token = .error .hookDisabled := by
    simp [validateHookToken, hf, hd]
  exact ⟨by simp [triggerHook, hv], by simp [triggerHook, hv, filesWritten]⟩

theorem c3_disabled_gate_witness :
    triggerHook [("ci", hookCIoff)] "data/flags" "ci" hookCIoff.token =
      .error .hookDisabled ∧
    filesWritten (triggerHook [("ci", hookCIoff)] "data/flags" "ci" hookCIoff.token)
      = [] :=
  c3_disabled_gate [("ci", hookCIoff)] "data/flags" "ci" hookCIoff rfl rfl

/-- C6 counterexample: the hook below violates none of the claim's
rejection conditions — id, name and flag file non-empty, flag file not
absolute, and no `/`-separated segment equal to `..` — yet the code
rejects it, because `validateHook` tests for `..` as a *substring*
(`strings.Contains`), and `a..b` contains that substring. -/
theorem c6_counterexample :
    ("x" : String) ≠ "" ∧ ("n" : String) ≠ "" ∧ ("a..b" : String) ≠ "" ∧
    isAbsB "a..b".data = false ∧
    hasDotDotSegB "a..b".data = false ∧
    exceptOk (validateHook ⟨"x", "n", "", "tok", "a..b", true, 0, 0⟩) = false := by
  decide

/-- C6 (amended): `CreateHook` and `UpdateHook` apply the same
validation (`validateHook`, whose error they return verbatim without
touching the registry), and that validation rejects exactly when the id
is empty, the name is empty, or the flag file is empty, absolute, or
contains `..` as a substring (not merely as a path segment); no other
field — an empty token included — is checked. -/
theorem c6_validation_rules (h : Hook) (hooks : Registry) (now : Nat) :
    (exceptOk (validateHook h) = true ↔
      (h.id ≠ "" ∧ h.name ≠ "" ∧ h.flagFile ≠ "" ∧
       isAbsB h.flagFile.data = false ∧ containsDotDotB h.flagFile.data = false)) ∧
    (∀ e, validateHook h = .error e →
      createHook hooks h now = ⟨some e, hooks, false⟩ ∧
      updateHook hooks h now = ⟨some e, hooks, false⟩) := by
  refine ⟨validateHook_ok_iff h, ?_⟩
  intro e he
  constructor
  · simp [createHook, he]
  · simp [updateHook, he]

theorem c6_validation_rules_witness :
    (exceptOk (validateHook ⟨"", "n", "", "t", "f", true, 0, 0⟩) = true ↔
      (("" : String) ≠ "" ∧ ("n" : String) ≠ "" ∧ ("f" : String) ≠ "" ∧
       isAbsB "f".data = false ∧ containsDotDotB "f".data = false)) ∧
    (createHook [] ⟨"", "n", "", "t", "f", true, 0, 0⟩ 5 =
      ⟨some (.validation "hook ID is required"), [], false⟩ ∧
     updateHook [] ⟨"", "n", "", "t", "f", true, 0, 0⟩ 5 =
      ⟨some (.validation "hook ID is required"), [], false⟩) :=
  ⟨(c6_validation_rules ⟨"", "n", "", "t", "f", true, 0, 0⟩ [] 5).1,
   (c6_validation_rules ⟨"", "n", "", "t", "f", true, 0, 0⟩ [] 5).2
     (.validation "hook ID is required") rfl⟩

/-- C7 counterexample: a stored, enabled hook with empty token is
authorized by the empty supplied token — `ValidateHookToken(id, "")`
succeeds, contradicting the claim that it never does. -/
theorem c7_counterexample :
    findHook [("ci", hookNoTok)] "ci" = some hookNoTok ∧
    hookNoTok.token = "" ∧ hookNoTok.enabled = true ∧
    validateHookToken [("ci", hookNoTok)] "ci" "" = .ok () :=
  ⟨rfl, rfl, rfl, rfl⟩

/-- C7 (amended): the service imposes no non-empty-token requirement at
comparison time: for a stored enabled hook whose token is the empty
string, `ValidateHookToken(id, "")` succeeds, since the comparison is
plain (constant-time) equality and both sides are empty. -/
theorem c7_empty_token (hooks : Registry) (id : String) (hook : Hook)
    (hf : findHook hooks id = some hook) (he : hook.enabled = true)
    (ht : hook.token = "") :
    validateHookToken hooks id "" = .ok () := by
  have hcc : constantTimeCompare (strBytes "") (strBytes "") = 1 := by rfl
  simp [validateHookToken, hf, he, ht, hcc]

theorem c7_empty_token_witness :
    validateHookToken [("ci", hookNoTok)] "ci" "" = .ok () :=
  c7_empty_token [("ci", hookNoTok)] "ci" hookNoTok rfl rfl rfl

/-! ## Registry lemmas -/

theorem findHook_eq_none_iff (hooks : Registry) (id : String) :
    findHook hooks id = none ↔ id ∉ hooks.map Prod.fst := by
  induction hooks with
  | nil => simp [findHook]
  | cons p rest ih =>
    obtain ⟨k, hk⟩ := p
    by_cases h : k = id
    · simp [findHook, h]
    · simp [findHook, h, ih, Ne.symm h]

theorem findHook_map_replace (hooks : Registry) (id : String) (g : Hook) :
    (findHook hooks id).isSome →
    findHook (hooks.map (fun p => if p.1 = id then (p.1, g) else p)) id = some g := by
  induction hooks with
  | nil => simp [findHook]
  | cons p rest ih =>
    obtain ⟨k, hk⟩ := p
    intro hs
    by_cases h : k = id
    · subst h
      show findHook ((if k = k then (k, g) else (k, hk)) ::
        rest.map (fun p => if p.1 = k then (p.1, g) else p)) k = some g
      rw [if_pos rfl]
      simp [findHook]
    · show findHook ((if k = id then (k, g) else (k, hk)) ::
        rest.map (fun p => if p.1 = id then (p.1, g) else p)) id = some g
      rw [if_neg h]
      simp only [findHook, h, if_false] at hs
      simp [findHook, h, ih hs]

/-- Every registry state reachable from the empty map has pairwise
distinct ids: the Go map invariant, re-established here for the
association-list embedding. -/
theorem reach_nodup_keys {s : Registry} (hs : Reach s) :
    (s.map Prod.fst).Nodup := by
  induction hs with
  | empty => simp
  | @create s h now hr ih =>
    by_cases hc : (findHook s h.id).isSome = true
    · simp only [repoCreate, if_pos hc]
      exact ih
    · simp only [repoCreate, if_neg hc]
      show ((h.id, _) :: s |>.map Prod.fst).Nodup
      simp only [List.map_cons]
      refine List.nodup_cons.mpr ⟨?_, ih⟩
      have hn : findHook s h.id = none := by
        cases hfe : findHook s h.id
        · rfl
        · rw [hfe] at hc
          simp at hc
      exact (findHook_eq_none_iff s h.id).mp hn
  | @update s h now hr ih =>
    by_cases hc : (findHook s h.id).isSome = true
    · simp only [repoUpdate, if_pos hc]
      show ((s.map _).map Prod.fst).Nodup
      have hkeys :
          (s.map (fun p => if p.1 = h.id then (p.1, { h with updatedAt := now }) else p)).map
            Prod.fst = s.map Prod.fst := by
        rw [List.map_map]
        apply List.map_congr_left
        intro p _
        by_cases hph : p.1 = h.id <;> simp [hph]
      rw [hkeys]
      exact ih
    · simp only [repoUpdate, if_neg hc]
      exact ih
  | @delete s id hr ih =>
    by_cases hc : (findHook s id).isSome = true
    · simp only [repoDelete, if_pos hc]
      show ((s.filter _).map Prod.fst).Nodup
      exact List.Nodup.sublist (List.Sublist.map Prod.fst (List.filter_sublist s)) ih
    · simp only [repoDelete, if_neg hc]
      exact ih

/-- C5: creating a second hook with an id already in the registry fails
with the already-exists error, leaves the map untouched (the first hook
is still stored unchanged), and every registry state reachable from the
empty map has at most one hook per id. -/
theorem c5_create_uniqueness :
    (∀ (hooks : Registry) (h1 h2 : Hook) (now : Nat),
      findHook hooks h2.id = some h1 →
      repoCreate hooks h2 now = ⟨some (.alreadyExists h2.id), hooks, false⟩ ∧
      findHook (repoCreate hooks h2 now).hooks h2.id = some h1) ∧
    (∀ hooks : Registry, Reach hooks → (hooks.map Prod.fst).Nodup) := by
  constructor
  · intro hooks h1 h2 now hf
    have hs : (findHook hooks h2.id).isSome := by
      rw [hf]
      rfl
    constructor
    · simp [repoCreate, hs]
    · simp [repoCreate, hs, hf]
  · exact fun _ => reach_nodup_keys

theorem c5_create_uniqueness_witness :
    (repoCreate [("ci", hookCI)] hookCIoff 7 =
      ⟨some (.alreadyExists "ci"), [("ci", hookCI)], false⟩ ∧
     findHook (repoCreate [("ci", hookCI)] hookCIoff 7).hooks "ci" = some hookCI) ∧
    (([] : Registry).map Prod.fst).Nodup :=
  ⟨c5_create_uniqueness.1 [("ci", hookCI)] hookCI hookCIoff 7 rfl,
   c5_create_uniqueness.2 [] Reach.empty⟩

/-- C4 counterexample: the registry holds a hook with `createdAt = 5`;
an update whose incoming record carries `createdAt = 0` succeeds and the
stored record afterwards has `createdAt = 0`, not the prior 5 — `Update`
replaces the record wholesale, so the stored `createdAt` is NOT left
unchanged. -/
theorem c4_counterexample :
    (repoUpdate [("ci", { hookCI with createdAt := 5, updatedAt := 5 })]
        { hookCI with name := "CI2" } 10).err = none ∧
    findHook (repoUpdate [("ci", { hookCI with createdAt := 5, updatedAt := 5 })]
        { hookCI with name := "CI2" } 10).hooks "ci" =
      some { hookCI with name := "CI2", updatedAt := 10 } ∧
    ({ hookCI with name := "CI2", updatedAt := 10 } : Hook).createdAt ≠
      ({ hookCI with createdAt := 5, updatedAt := 5 } : Hook).createdAt := by
  refine ⟨rfl, rfl, by decide⟩

/-- C4 (amended): a successful `Update` stores the incoming record with
`updatedAt = now` — strictly greater than the prior stored `updatedAt`
whenever the clock has advanced past it — and with `createdAt` equal to
the *incoming* record's `createdAt` (wholesale replacement); the prior
stored `createdAt` is preserved only if the caller passes it back. -/
theorem c4_update_semantics (hooks : Registry) (h old : Hook) (now : Nat)
    (hf : findHook hooks h.id = some old) (hclk : old.updatedAt < now) :
    (repoUpdate hooks h now).err = none ∧
    (repoUpdate hooks h now).saved = true ∧
    findHook (repoUpdate hooks h now).hooks h.id = some { h with updatedAt := now } ∧
    old.updatedAt < ({ h with updatedAt := now } : Hook).updatedAt ∧
    ({ h with updatedAt := now } : Hook).createdAt = h.createdAt := by
  have hs : (findHook hooks h.id).isSome := by
    rw [hf]
    rfl
  refine ⟨by simp [repoUpdate, hs], by simp [repoUpdate, hs], ?_, hclk, rfl⟩
  have := findHook_map_replace hooks h.id { h with updatedAt := now } hs
  simpa [repoUpdate, hs] using this

theorem c4_update_semantics_witness :
    (repoUpdate [("ci", { hookCI with createdAt := 5, updatedAt := 5 })]
        { hookCI with name := "CI2" } 10).err = none ∧
    (repoUpdate [("ci", { hookCI with createdAt := 5, updatedAt := 5 })]
        { hookCI with name := "CI2" } 10).saved = true ∧
    findHook (repoUpdate [("ci", { hookCI with createdAt := 5, updatedAt := 5 })]
        { hookCI with name := "CI2" } 10).hooks "ci" =
      some { hookCI with name := "CI2", updatedAt := 10 } ∧
    ({ hookCI with createdAt := 5, updatedAt := 5 } : Hook).updatedAt <
      ({ hookCI with name := "CI2", updatedAt := 10 } : Hook).updatedAt ∧
    ({ hookCI with name := "CI2", updatedAt := 10 } : Hook).createdAt =
      ({ hookCI with name := "CI2" } : Hook).createdAt :=
  c4_update_semantics [("ci", { hookCI with createdAt := 5, updatedAt := 5 })]
    { hookCI with name := "CI2" } { hookCI with createdAt := 5, updatedAt := 5 } 10
    rfl (by decide)

/-- C8: a successful `Create` followed by `GetByID` on the same id
returns a record equal to the input in every field except the
server-assigned timestamps, and on creation `createdAt = updatedAt`
(both set to the creation instant). -/
theorem c8_create_roundtrip (hooks : Registry) (h : Hook) (now : Nat)
    (hnew : findHook hooks h.id = none) :
    (repoCreate hooks h now).err = none ∧
    ∃ stored, findHook (repoCreate hooks h now).hooks h.id = some stored ∧
      stored.id = h.id ∧ stored.name = h.name ∧
      stored.description = h.description ∧ stored.token = h.token ∧
      stored.flagFile = h.flagFile ∧ stored.enabled = h.enabled ∧
      stored.createdAt = now ∧ stored.updatedAt = now ∧
      stored.createdAt = stored.updatedAt := by
  have hs : ¬ (findHook hooks h.id).isSome = true := by
    simp [hnew]
  refine ⟨by simp [repoCreate, hs], ⟨{ h with createdAt := now, updatedAt := now }, ?_,
    rfl, rfl, rfl, rfl, rfl, rfl, rfl, rfl, rfl⟩⟩
  simp [repoCreate, hs, findHook]

theorem c8_create_roundtrip_witness :
    (repoCreate [] hookCI 3).err = none ∧
    ∃ stored, findHook (repoCreate [] hookCI 3).hooks hookCI.id = some stored ∧
      stored.id = hookCI.id ∧ stored.name = hookCI.name ∧
      stored.description = hookCI.description ∧ stored.token = hookCI.token ∧
      stored.flagFile = hookCI.flagFile ∧ stored.enabled = hookCI.enabled ∧
      stored.createdAt = 3 ∧ stored.updatedAt = 3 ∧
      stored.createdAt = stored.updatedAt :=
  c8_create_roundtrip [] hookCI 3 rfl

/-- C9: the token comparison of `ValidateHookToken` is the Go
`subtle.ConstantTimeCompare` loop; with time modelled as the number of
byte-comparison iterations the loop executes, two wrong supplied tokens
of equal byte length take exactly the same time against the stored
secret (and both are rejected): the cost never depends on where the
mismatch occurs. -/
theorem c9_constant_time (hook : Hook) (t1 t2 : String)
    (hlen : (strBytes t1).length = (strBytes t2).length)
    (h1 : t1 ≠ hook.token) (h2 : t2 ≠ hook.token) :
    (constantTimeCompareT (strBytes hook.token) (strBytes t1)).1 = 0 ∧
    (constantTimeCompareT (strBytes hook.token) (strBytes t2)).1 = 0 ∧
    (constantTimeCompareT (strBytes hook.token) (strBytes t1)).2 =
      (constantTimeCompareT (strBytes hook.token) (strBytes t2)).2 := by
  have hres : ∀ t : String, t ≠ hook.token →
      (constantTimeCompareT (strBytes hook.token) (strBytes t)).1 = 0 := by
    intro t ht
    rcases ctCompare_fst_cases (strBytes hook.token) (strBytes t) with h0 | hone
    · exact h0
    · exact absurd ((ctCompare_eq_one_iff hook.token t).mp hone) (fun he => ht he.symm)
  refine ⟨hres t1 h1, hres t2 h2, ?_⟩
  unfold constantTimeCompareT
  by_cases hl : (strBytes hook.token).length = (strBytes t1).length
  · have hl2 : (strBytes hook.token).length = (strBytes t2).length := by
      rw [hl, hlen]
    rw [if_pos hl, if_pos hl2]
    simp [List.length_zip, hl, hlen]
  · have hl2 : ¬ (strBytes hook.token).length = (strBytes t2).length := by
      intro hc
      exact hl (by rw [hc, hlen])
    rw [if_neg hl, if_neg hl2]

theorem c9_constant_time_witness :
    (constantTimeCompareT (strBytes hookCI.token) (strBytes "Xbc123")).1 = 0 ∧
    (constantTimeCompareT (strBytes hookCI.token) (strBytes "abc12X")).1 = 0 ∧
    (constantTimeCompareT (strBytes hookCI.token) (strBytes "Xbc123")).2 =
      (constantTimeCompareT (strBytes hookCI.token) (strBytes "abc12X")).2 :=
  c9_constant_time hookCI "Xbc123" "abc12X" (by decide) (by decide) (by decide)

/-- C10: every registry mutation that fails its business-rule check —
`Create` on a present id, `Update` on a missing id, `Delete` on a
missing id — leaves the in-memory map exactly as it was and never
reaches the `save()` step that rewrites the backing file. -/
theorem c10_failed_mutation_atomic (hooks : Registry) (h : Hook) (now : Nat)
    (id : String) :
    ((repoCreate hooks h now).err.isSome →
      (repoCreate hooks h now).hooks = hooks ∧
      (repoCreate hooks h now).saved = false) ∧
    ((repoUpdate hooks h now).err.isSome →
      (repoUpdate hooks h now).hooks = hooks ∧
      (repoUpdate hooks h now).saved = false) ∧
    ((repoDelete hooks id).err.isSome →
      (repoDelete hooks id).hooks = hooks ∧
      (repoDelete hooks id).saved = false) := by
  refine ⟨?_, ?_, ?_⟩
  · intro he
    by_cases hc : (findHook hooks h.id).isSome = true
    · simp [repoCreate, hc]
    · simp [repoCreate, hc] at he
  · intro he
    by_cases hc : (findHook hooks h.id).isSome = true
    · simp [repoUpdate, hc] at he
    · simp [repoUpdate, hc]
  · intro he
    by_cases hc : (findHook hooks id).isSome = true
    · simp [repoDelete, hc] at he
    · simp [repoDelete, hc]

theorem c10_failed_mutation_atomic_witness :
    ((repoCreate [("ci", hookCI)] hookCI 9).hooks = [("ci", hookCI)] ∧
     (repoCreate [("ci", hookCI)] hookCI 9).saved = false) ∧
    ((repoUpdate [] hookCI 9).hooks = [] ∧ (repoUpdate [] hookCI 9).saved = false) ∧
    ((repoDelete [] "ci").hooks = [] ∧ (repoDelete [] "ci").saved = false) :=
  ⟨(c10_failed_mutation_atomic [("ci", hookCI)] hookCI 9 "ci").1 rfl,
   (c10_failed_mutation_atomic [] hookCI 9 "ci").2.1 rfl,
   (c10_failed_mutation_atomic [] hookCI 9 "ci").2.2 rfl⟩
